import Mathlib

/-!
Verification of the channel-export pipeline in
`contentcuration/management/commands/exportchannel.py`.

The development shallowly embeds the parts of the export command that the
claims concern:

* the breadth-first tree walk `map_content_nodes` / `create_bare_contentnode`
  (lines 122-197 of the source), over a rose tree of editorial nodes;
* the mastery-model normalization `process_assessment_metadata`
  (lines 264-307), with Python falsy-or semantics made explicit;
* the answer filter inside `write_assessment_item` (line 376);
* the graphie blob split inside `create_perseus_zip` (lines 325-333),
  with Python `bytes.split` modelled over lists of bytes;
* the token retry loop and token creation of `add_tokens_to_channel`
  (lines 553-568), with the generate() call sequence made an explicit
  function of the call index and the loop bounded by explicit fuel;
* the step sequence of `Command.handle` (lines 57-90) acting on an abstract
  editorial store (version, node flags, token records), with the
  failure points of each step exposed as parameters.

Machine integers do not occur on the modelled paths; Python ints are Nat/Int.
-/

namespace ExportChannel

/-! ### Tree transformer: editorial nodes and the breadth-first walk -/

/-- Content kinds; `topic` is the only non-leaf kind relevant to pruning. -/
inductive Kind where
  | topic
  | exercise
  | video
  | audio
  | document
  | html5
deriving DecidableEq, Repr

/-- An editorial content node: node id, kind, ordered children. -/
inductive CCNode where
  | mk : Nat → Kind → List CCNode → CCNode

def CCNode.node_id : CCNode → Nat
  | .mk i _ _ => i

def CCNode.kind : CCNode → Kind
  | .mk _ k _ => k

def CCNode.children : CCNode → List CCNode
  | .mk _ _ cs => cs

mutual

def size : CCNode → Nat
  | .mk _ _ cs => 1 + sizeList cs

def sizeList : List CCNode → Nat
  | [] => 0
  | c :: cs => size c + sizeList cs

end

mutual

/-- Embeds `node.get_descendants(include_self=True).exclude(kind_id=TOPIC).exists()`
(source lines 143 and 180): the subtree rooted at the node, itself included,
contains a node of non-topic kind. -/
def has_leaf_descendant : CCNode → Bool
  | .mk _ k cs => (k != Kind.topic) || anyLeaf cs

def anyLeaf : List CCNode → Bool
  | [] => false
  | c :: cs => has_leaf_descendant c || anyLeaf cs

end

mutual

/-- All nodes of the subtree rooted at a node, the node itself included. -/
def subtreeNodes : CCNode → List CCNode
  | .mk i k cs => .mk i k cs :: subtreeList cs

def subtreeList : List CCNode → List CCNode
  | [] => []
  | c :: cs => subtreeNodes c ++ subtreeList cs

end

/-- A created Kolibri ContentNode record: keyed by source node id, with the
parent link and the `available` flag computed at creation (source lines 169-193). -/
structure TargetRec where
  node_id : Nat
  parent : Option Nat
  available : Bool
deriving DecidableEq, Repr

/-- Embeds `create_bare_contentnode` (source lines 157-197): the record is keyed
by the source node id, linked to the parent's node id, and
`available` is the same descendant query used for pruning (line 180). -/
def create_bare_contentnode (par : Option Nat) (n : CCNode) : TargetRec :=
  { node_id := n.node_id, parent := par, available := has_leaf_descendant n }

def qsize : List (Option Nat × CCNode) → Nat
  | [] => 0
  | (_, n) :: q => size n + qsize q

theorem qsize_append (a b : List (Option Nat × CCNode)) :
    qsize (a ++ b) = qsize a + qsize b := by
  induction a with
  | nil => simp [qsize]
  | cons h t ih => cases h; simp [qsize, ih]; omega

theorem qsize_map_pair (i : Nat) (cs : List CCNode) :
    qsize (cs.map (fun c => (some i, c))) = sizeList cs := by
  induction cs with
  | nil => simp [qsize, sizeList]
  | cons c t ih => simp [qsize, sizeList, ih]

/-- Embeds `map_content_nodes` (source lines 122-154): a FIFO queue is seeded
with the root, and each dequeued node is skipped entirely when the pruning
query is false; otherwise its children are enqueued (tagged with the parent's
node id) and a target record is created. The output is the list of created
records in creation order. -/
def map_content_nodes : List (Option Nat × CCNode) → List TargetRec
  | [] => []
  | (par, CCNode.mk i k cs) :: q =>
    if has_leaf_descendant (.mk i k cs) then
      create_bare_contentnode par (.mk i k cs) ::
        map_content_nodes (q ++ cs.map (fun c => (some i, c)))
    else
      map_content_nodes q
termination_by q => qsize q
decreasing_by
  all_goals simp [qsize, qsize_append, qsize_map_pair, size]
  all_goals omega

theorem mem_subtreeList (m : CCNode) (cs : List CCNode) :
    m ∈ subtreeList cs ↔ ∃ c ∈ cs, m ∈ subtreeNodes c := by
  induction cs with
  | nil => simp [subtreeList]
  | cons c t ih => simp [subtreeList, ih]

theorem size_pos (n : CCNode) : 0 < size n := by
  cases n with
  | mk i k cs => rw [size]; omega

theorem size_le_sizeList (c : CCNode) (cs : List CCNode) (h : c ∈ cs) :
    size c ≤ sizeList cs := by
  induction cs with
  | nil => simp at h
  | cons a t ih =>
    rcases List.mem_cons.mp h with h1 | h2
    · subst h1; rw [sizeList]; omega
    · have := ih h2; rw [sizeList]; omega

theorem anyLeaf_of_mem (c : CCNode) (cs : List CCNode) (h : c ∈ cs)
    (hc : has_leaf_descendant c = true) : anyLeaf cs = true := by
  induction cs with
  | nil => simp at h
  | cons a t ih =>
    rcases List.mem_cons.mp h with h1 | h2
    · subst h1; simp [anyLeaf, hc]
    · simp [anyLeaf, ih h2]

theorem leaf_mono_fuel (s : Nat) :
    ∀ (n : CCNode), size n ≤ s →
      ∀ m ∈ subtreeNodes n, has_leaf_descendant m = true → has_leaf_descendant n = true := by
  induction s with
  | zero =>
    intro n hn
    have := size_pos n
    omega
  | succ s ih =>
    intro n hn m hm hleaf
    cases n with
    | mk i k cs =>
      rw [subtreeNodes] at hm
      rcases List.mem_cons.mp hm with h1 | h2
      · subst h1; exact hleaf
      · rcases (mem_subtreeList m cs).mp h2 with ⟨c, hc, hmc⟩
        have hsz : size c ≤ s := by
          have := size_le_sizeList c cs hc
          rw [size] at hn
          omega
        have hcl : has_leaf_descendant c = true := ih c hsz m hmc hleaf
        rw [has_leaf_descendant]
        simp
        exact Or.inr (anyLeaf_of_mem c cs hc hcl)

theorem leaf_mono (n : CCNode) :
    ∀ m ∈ subtreeNodes n, has_leaf_descendant m = true → has_leaf_descendant n = true :=
  leaf_mono_fuel (size n) n (Nat.le_refl _)

/-- How many records the walk creates for node id `x` out of the subtree at `n`:
one per subtree member that passes the pruning query and carries id `x`. -/
def visitCount (n : CCNode) (x : Nat) : Nat :=
  (subtreeNodes n).countP (fun m => has_leaf_descendant m && (m.node_id == x))

theorem visitCount_eq_zero (n : CCNode) (x : Nat) (h : has_leaf_descendant n = false) :
    visitCount n x = 0 := by
  unfold visitCount
  rw [List.countP_eq_zero]
  intro m hm
  by_contra hcon
  simp at hcon
  have := leaf_mono n m hm hcon.1
  simp [this] at h

theorem countP_subtreeList (cs : List CCNode) (p : CCNode → Bool) :
    (subtreeList cs).countP p = (cs.map (fun c => (subtreeNodes c).countP p)).sum := by
  induction cs with
  | nil => simp [subtreeList]
  | cons c t ih => simp [subtreeList, List.countP_append, ih]

theorem visitCount_unfold (i : Nat) (k : Kind) (cs : List CCNode) (x : Nat) :
    visitCount (.mk i k cs) x =
      (if has_leaf_descendant (.mk i k cs) && (i == x) then 1 else 0) +
        (cs.map (fun c => visitCount c x)).sum := by
  unfold visitCount
  rw [subtreeNodes, List.countP_cons, countP_subtreeList]
  simp [CCNode.node_id, Nat.add_comm]

def qcount (q : List (Option Nat × CCNode)) (x : Nat) : Nat :=
  (q.map (fun e => visitCount e.2 x)).sum

theorem qcount_append (a b : List (Option Nat × CCNode)) (x : Nat) :
    qcount (a ++ b) x = qcount a x + qcount b x := by
  simp [qcount]

theorem qcount_map_pair (i : Nat) (cs : List CCNode) (x : Nat) :
    qcount (cs.map (fun c => (some i, c))) x = (cs.map (fun c => visitCount c x)).sum := by
  simp [qcount, Function.comp_def]

theorem map_content_nodes_count (q : List (Option Nat × CCNode)) (x : Nat) :
    (map_content_nodes q).countP (fun r => r.node_id == x) = qcount q x := by
  induction q using map_content_nodes.induct with
  | case1 => simp [map_content_nodes, qcount]
  | case2 par i k cs q hleaf ih =>
    rw [map_content_nodes]
    simp [hleaf, List.countP_cons, create_bare_contentnode, CCNode.node_id]
    rw [ih, qcount_append, qcount_map_pair]
    have hq : qcount ((par, CCNode.mk i k cs) :: q) x =
        visitCount (.mk i k cs) x + qcount q x := by
      simp [qcount, Nat.add_comm]
    rw [hq, visitCount_unfold]
    simp [hleaf]
    by_cases hx : i = x <;> simp [hx] <;> omega
  | case3 par i k cs q hleaf ih =>
    rw [map_content_nodes]
    have hq : qcount ((par, CCNode.mk i k cs) :: q) x =
        visitCount (.mk i k cs) x + qcount q x := by
      simp [qcount, Nat.add_comm]
    simp [hleaf, ih, hq, visitCount_eq_zero _ x (by simpa using hleaf)]

theorem anyLeaf_iff (cs : List CCNode) :
    anyLeaf cs = true ↔ ∃ c ∈ cs, has_leaf_descendant c = true := by
  induction cs with
  | nil => simp [anyLeaf]
  | cons c t ih => simp [anyLeaf, ih]

theorem has_leaf_iff_fuel (s : Nat) :
    ∀ n : CCNode, size n ≤ s →
      (has_leaf_descendant n = true ↔ ∃ m ∈ subtreeNodes n, m.kind ≠ Kind.topic) := by
  induction s with
  | zero =>
    intro n hn
    have := size_pos n
    omega
  | succ s ih =>
    intro n hn
    cases n with
    | mk i k cs =>
      rw [has_leaf_descendant, subtreeNodes]
      constructor
      · intro h
        rcases Bool.or_eq_true_iff.mp h with h1 | h1
        · exact ⟨.mk i k cs, List.mem_cons_self _ _, by simpa [CCNode.kind] using h1⟩
        · rcases (anyLeaf_iff cs).mp h1 with ⟨c, hc, hcl⟩
          have hsz : size c ≤ s := by
            have := size_le_sizeList c cs hc
            rw [size] at hn
            omega
          rcases ((ih c hsz).mp hcl) with ⟨m, hm, hmk⟩
          exact ⟨m, List.mem_cons_of_mem _ ((mem_subtreeList m cs).mpr ⟨c, hc, hm⟩), hmk⟩
      · rintro ⟨m, hm, hmk⟩
        rcases List.mem_cons.mp hm with h1 | h2
        · subst h1
          simp [CCNode.kind] at hmk
          simp [hmk]
        · rcases (mem_subtreeList m cs).mp h2 with ⟨c, hc, hmc⟩
          have hsz : size c ≤ s := by
            have := size_le_sizeList c cs hc
            rw [size] at hn
            omega
          have hcl : has_leaf_descendant c = true := (ih c hsz).mpr ⟨m, hmc, hmk⟩
          simp [anyLeaf_of_mem c cs hc hcl]

theorem has_leaf_iff (n : CCNode) :
    has_leaf_descendant n = true ↔ ∃ m ∈ subtreeNodes n, m.kind ≠ Kind.topic :=
  has_leaf_iff_fuel (size n) n (Nat.le_refl _)

theorem countP_eq_of_nodup_map (l : List CCNode) (n : CCNode) (hn : n ∈ l)
    (hd : (l.map CCNode.node_id).Nodup) :
    l.countP (fun m => has_leaf_descendant m && (m.node_id == n.node_id)) =
      if has_leaf_descendant n then 1 else 0 := by
  induction l with
  | nil => cases hn
  | cons a t ih =>
    rw [List.map_cons, List.nodup_cons] at hd
    rw [List.countP_cons]
    rcases List.mem_cons.mp hn with h1 | h2
    · subst h1
      have ht : t.countP (fun m => has_leaf_descendant m && (m.node_id == n.node_id)) = 0 := by
        rw [List.countP_eq_zero]
        intro m hm
        have : m.node_id ≠ n.node_id := by
          intro hcon
          exact hd.1 (hcon ▸ List.mem_map_of_mem CCNode.node_id hm)
        simp [this]
      rw [ht]
      by_cases hl : has_leaf_descendant n = true <;> simp [hl]
    · have hne : a.node_id ≠ n.node_id := by
        intro hcon
        exact hd.1 (hcon ▸ List.mem_map_of_mem CCNode.node_id h2)
      simp [hne, ih h2 hd.2]

theorem map_content_nodes_available (q : List (Option Nat × CCNode)) :
    ∀ r ∈ map_content_nodes q, r.available = true := by
  induction q using map_content_nodes.induct with
  | case1 => simp [map_content_nodes]
  | case2 par i k cs q hleaf ih =>
    rw [map_content_nodes]
    simp [hleaf]
    constructor
    · simp [create_bare_contentnode, hleaf]
    · exact ih
  | case3 par i k cs q hleaf ih =>
    rw [map_content_nodes]
    simp only [hleaf, if_false, Bool.false_eq_true]
    exact ih

theorem walk_parent_inv (q : List (Option Nat × CCNode)) (done : List Nat)
    (hq : ∀ e ∈ q, ∀ p : Nat, e.1 = some p → p ∈ done) :
    ∀ l₁ (r : TargetRec) l₂, map_content_nodes q = l₁ ++ r :: l₂ →
      ∀ p, r.parent = some p → p ∈ done ∨ p ∈ l₁.map TargetRec.node_id := by
  induction q using map_content_nodes.induct generalizing done with
  | case1 =>
    intro l₁ r l₂ h
    rw [map_content_nodes] at h
    exact absurd h (by simp)
  | case2 par i k cs q hleaf ih =>
    intro l₁ r l₂ h p hp
    rw [map_content_nodes] at h
    simp only [hleaf, if_pos] at h
    cases l₁ with
    | nil =>
      rw [List.nil_append] at h
      injection h with h1 h2
      have hpar : r.parent = par := by
        rw [h1.symm]
        simp [create_bare_contentnode]
      left
      exact hq _ (List.mem_cons_self _ _) p (hpar ▸ hp)
    | cons a l₁' =>
      rw [List.cons_append] at h
      injection h with ha hrest
      have hq' : ∀ e ∈ q ++ cs.map (fun c => (some i, c)), ∀ p : Nat,
          e.1 = some p → p ∈ i :: done := by
        intro e he pp hep
        rcases List.mem_append.mp he with h1 | h1
        · exact List.mem_cons_of_mem _ (hq e (List.mem_cons_of_mem _ h1) pp hep)
        · rcases List.mem_map.mp h1 with ⟨c, hcm, hce⟩
          subst hce
          simp at hep
          rw [hep.symm]
          exact List.mem_cons_self _ _
      rcases ih (i :: done) hq' l₁' r l₂ hrest p hp with hres | hres
      · rcases List.mem_cons.mp hres with h1 | h1
        · right
          have hap : a.node_id = p := by
            rw [ha.symm, h1]
            rfl
          rw [List.map_cons]
          exact List.mem_cons.mpr (Or.inl hap.symm)
        · left; exact h1
      · right
        rw [List.map_cons]
        exact List.mem_cons_of_mem _ hres
  | case3 par i k cs q hleaf ih =>
    intro l₁ r l₂ h p hp
    rw [map_content_nodes] at h
    simp only [hleaf, Bool.false_eq_true, if_neg, if_false, Bool.not_eq_true] at h
    have hq' : ∀ e ∈ q, ∀ p : Nat, e.1 = some p → p ∈ done := by
      intro e he
      exact hq e (List.mem_cons_of_mem _ he)
    exact ih done hq' l₁ r l₂ (by simpa using h) p hp

/-- Claim C4: in the tree walk, a topic node with zero leaf-kind (non-topic)
descendants produces no target node record at all, and a topic node with at
least one leaf-kind descendant produces exactly one target node record, every
created record carrying available = true. Stated over a walk started at the
root, for trees whose node ids are distinct. -/
theorem claim_C4 (root n : CCNode)
    (htopic : n.kind = Kind.topic)
    (hmem : n ∈ subtreeNodes root)
    (hnodup : ((subtreeNodes root).map CCNode.node_id).Nodup) :
    ((∀ m ∈ subtreeNodes n, m.kind = Kind.topic) →
        (map_content_nodes [(none, root)]).countP (fun r => r.node_id == n.node_id) = 0)
    ∧ ((∃ m ∈ subtreeNodes n, m.kind ≠ Kind.topic) →
        (map_content_nodes [(none, root)]).countP (fun r => r.node_id == n.node_id) = 1
          ∧ ∀ r ∈ map_content_nodes [(none, root)], r.available = true) := by
  have hcount : (map_content_nodes [(none, root)]).countP (fun r => r.node_id == n.node_id) =
      if has_leaf_descendant n then 1 else 0 := by
    rw [map_content_nodes_count]
    simp [qcount, visitCount]
    have := countP_eq_of_nodup_map (subtreeNodes root) n hmem hnodup
    unfold visitCount at *
    exact this
  constructor
  · intro hall
    have hfalse : has_leaf_descendant n = false := by
      by_contra hcon
      rw [Bool.not_eq_false] at hcon
      rcases (has_leaf_iff n).mp hcon with ⟨m, hm, hmk⟩
      exact hmk (hall m hm)
    rw [hcount, hfalse]
    simp
  · intro hex
    have hl : has_leaf_descendant n = true := (has_leaf_iff n).mpr hex
    exact ⟨by rw [hcount, hl]; simp, map_content_nodes_available _⟩

/-- Claim C4, witness: in the concrete tree with root topic 1, empty topic 2
and exercise 3, the empty topic 2 yields zero target records. -/
theorem claim_C4_witness :
    (CCNode.mk 2 Kind.topic []).kind = Kind.topic ∧
      (map_content_nodes
          [(none, CCNode.mk 1 Kind.topic [CCNode.mk 2 Kind.topic [], CCNode.mk 3 Kind.exercise []])]).countP
        (fun r => r.node_id == (CCNode.mk 2 Kind.topic []).node_id) = 0 :=
  ⟨rfl,
    (claim_C4 (CCNode.mk 1 Kind.topic [CCNode.mk 2 Kind.topic [], CCNode.mk 3 Kind.exercise []])
        (CCNode.mk 2 Kind.topic []) rfl
        (by simp [subtreeNodes, subtreeList])
        (by simp [subtreeNodes, subtreeList, CCNode.node_id])).1
      (by simp [subtreeNodes, subtreeList, CCNode.kind])⟩

/-- Claim C5: ancestor-before-descendant creation order. Whenever the walk
output decomposes as l₁ ++ r :: l₂ and record r carries a parent link p, a
record with node id p was created strictly earlier, i.e. lies in l₁. -/
theorem claim_C5 (root : CCNode) (l₁ : List TargetRec) (r : TargetRec) (l₂ : List TargetRec)
    (h : map_content_nodes [(none, root)] = l₁ ++ r :: l₂)
    (p : Nat) (hp : r.parent = some p) :
    p ∈ l₁.map TargetRec.node_id := by
  rcases walk_parent_inv [(none, root)] [] (by simp) l₁ r l₂ h p hp with h1 | h1
  · exact absurd h1 (by simp)
  · exact h1

/-- Claim C5, witness: for topic 1 with exercise child 2, the child's record
(parent link 1) is preceded by the record with node id 1. -/
theorem claim_C5_witness :
    (1 : Nat) ∈ [TargetRec.mk 1 none true].map TargetRec.node_id :=
  claim_C5 (CCNode.mk 1 Kind.topic [CCNode.mk 2 Kind.exercise []])
    [TargetRec.mk 1 none true] (TargetRec.mk 2 (some 1) true) []
    (by simp [map_content_nodes, has_leaf_descendant, anyLeaf, create_bare_contentnode,
      CCNode.children, CCNode.node_id])
    1 rfl

/-! ### Exercise bundler: mastery-model normalization (source lines 264-307) -/

def M_OF_N : String := "m_of_n"

def DO_ALL : String := "do_all"

def NUM_CORRECT_IN_A_ROW_2 : String := "num_correct_in_a_row_2"

def NUM_CORRECT_IN_A_ROW_3 : String := "num_correct_in_a_row_3"

def NUM_CORRECT_IN_A_ROW_5 : String := "num_correct_in_a_row_5"

def NUM_CORRECT_IN_A_ROW_10 : String := "num_correct_in_a_row_10"

/-- Python `x or d` for an optional string: the default is taken when the key
is absent or the value is the falsy empty string. -/
def pyOrStr (x : Option String) (d : String) : String :=
  match x with
  | some s => if s = "" then d else s
  | none => d

/-- Python `x or d` for an optional integer: absent and 0 are both falsy. -/
def pyOrNatOpt (x : Option Nat) (d : Nat) : Nat :=
  match x with
  | some k => if k = 0 then d else k
  | none => d

/-- Python `a or d` for an integer: 0 is falsy. -/
def pyOrNat (a d : Nat) : Nat := if a = 0 then d else a

/-- Python `exercise_data.get('randomize') or True` (source line 269). -/
def pyOrBoolTrue (x : Option Bool) : Bool :=
  match x with
  | some b => if b then b else true
  | none => true

/-- The mastery-related keys of a node's `extra_fields` JSON blob. -/
structure ExtraFields where
  mastery_model : Option String
  n : Option Nat
  m : Option Nat
  randomize : Option Bool
deriving DecidableEq, Repr

/-- The normalized metadata written by `process_assessment_metadata`: the
normalized type is always M_OF_N, the legacy type is kept, and n/m are absent
when the legacy type matches no known pattern. -/
structure AssessmentMetadata where
  mastery_model : String
  legacy_mastery_model : String
  randomize : Bool
  n : Option Nat
  m : Option Nat
deriving DecidableEq, Repr

/-- Embeds `process_assessment_metadata` (source lines 264-307). `extra` is
`none` when the node has no `extra_fields`; `item_count` is
`assessment_items.count()`. Each `get(...) or ...` chain keeps Python falsy
semantics via the pyOr helpers. -/
def process_assessment_metadata (extra : Option ExtraFields) (item_count : Nat) :
    AssessmentMetadata :=
  let get_mm := extra.bind ExtraFields.mastery_model
  let get_n := extra.bind ExtraFields.n
  let get_m := extra.bind ExtraFields.m
  let get_rand := extra.bind ExtraFields.randomize
  let randomize := pyOrBoolTrue get_rand
  let mtype := pyOrStr get_mm M_OF_N
  let nm : Option Nat × Option Nat :=
    if mtype = M_OF_N then
      (some (pyOrNatOpt get_n (pyOrNat (min 5 item_count) 1)),
       some (pyOrNatOpt get_m (pyOrNat (min 5 item_count) 1)))
    else if mtype = DO_ALL then
      (some (pyOrNat item_count 1), some (pyOrNat item_count 1))
    else if mtype = NUM_CORRECT_IN_A_ROW_2 then (some 2, some 2)
    else if mtype = NUM_CORRECT_IN_A_ROW_3 then (some 3, some 3)
    else if mtype = NUM_CORRECT_IN_A_ROW_5 then (some 5, some 5)
    else if mtype = NUM_CORRECT_IN_A_ROW_10 then (some 10, some 10)
    else (none, none)
  { mastery_model := M_OF_N
    legacy_mastery_model := mtype
    randomize := randomize
    n := nm.1
    m := nm.2 }

/-- Claim C3: with type M of N and no n/m override (also when extra_fields is
absent entirely) the normalization yields n = m = min(5, item_count) clamped to
at least 1 — so item_count 0 gives 1 and item_count 12 gives 5 without any
special case — and type do-all yields n = m = item_count clamped to at least 1
regardless of any n/m override. -/
theorem claim_C3 (item_count : Nat) (r : Option Bool) :
    ((process_assessment_metadata (some ⟨some M_OF_N, none, none, r⟩) item_count).n
        = some (max 1 (min 5 item_count))
      ∧ (process_assessment_metadata (some ⟨some M_OF_N, none, none, r⟩) item_count).m
        = some (max 1 (min 5 item_count)))
    ∧ ((process_assessment_metadata none item_count).n = some (max 1 (min 5 item_count))
      ∧ (process_assessment_metadata none item_count).m = some (max 1 (min 5 item_count)))
    ∧ (∀ novr movr : Option Nat,
        (process_assessment_metadata (some ⟨some DO_ALL, novr, movr, r⟩) item_count).n
            = some (max 1 item_count)
          ∧ (process_assessment_metadata (some ⟨some DO_ALL, novr, movr, r⟩) item_count).m
            = some (max 1 item_count)) := by
  have hclamp : pyOrNat (min 5 item_count) 1 = max 1 (min 5 item_count) := by
    unfold pyOrNat
    by_cases h : min 5 item_count = 0 <;> simp [h] <;> omega
  have hclamp2 : pyOrNat item_count 1 = max 1 item_count := by
    unfold pyOrNat
    by_cases h : item_count = 0 <;> simp [h] <;> omega
  refine ⟨⟨?_, ?_⟩, ⟨?_, ?_⟩, fun novr movr => ⟨?_, ?_⟩⟩ <;>
    simp [process_assessment_metadata, pyOrStr, pyOrNatOpt, M_OF_N, DO_ALL, hclamp, hclamp2]

/-- Claim C10: the randomize flag written into the normalized metadata is
always true, whatever extra_fields holds — `get('randomize') or True` can
never be false. -/
theorem claim_C10 (extra : Option ExtraFields) (item_count : Nat) :
    (process_assessment_metadata extra item_count).randomize = true := by
  unfold process_assessment_metadata
  simp
  unfold pyOrBoolTrue
  cases h : extra.bind ExtraFields.randomize with
  | none => rfl
  | some b => cases b <;> rfl

/-! ### Answer filtering in `write_assessment_item` (source line 376) -/

/-- A JSON answer value as the filter sees it: a string or a number. -/
inductive PyVal where
  | str (s : String)
  | num (n : Int)
deriving DecidableEq, Repr

/-- Python truthiness of an answer value: empty string and 0 are falsy. -/
def pyTruthy : PyVal → Bool
  | .str s => s != ""
  | .num n => n != 0

/-- Python `value == 0`: true only for the number 0 (a string never equals 0). -/
def pyEqZero : PyVal → Bool
  | .str _ => false
  | .num n => n == 0

/-- One entry of an assessment item's answer list. -/
structure Answer where
  answer : PyVal
  order : Nat
deriving DecidableEq, Repr

/-- The filter predicate `lambda a: a['answer'] or a['answer'] == 0`. -/
def keep_answer (a : Answer) : Bool := pyTruthy a.answer || pyEqZero a.answer

/-- Embeds the answer filtering of `write_assessment_item` (source line 376):
empty answers are dropped, but not the literal 0. -/
def filter_answers (l : List Answer) : List Answer := l.filter keep_answer

/-- Claim C6: filtering an answer list drops every answer whose value is the
empty string and retains every answer whose value is the integer 0. -/
theorem claim_C6 (l : List Answer) :
    (∀ a : Answer, a.answer = PyVal.str "" → a ∉ filter_answers l)
    ∧ (∀ a ∈ l, a.answer = PyVal.num 0 → a ∈ filter_answers l) := by
  constructor
  · intro a ha hmem
    rw [filter_answers, List.mem_filter] at hmem
    have hk : keep_answer a = false := by
      simp [keep_answer, pyTruthy, pyEqZero, ha]
    rw [hk] at hmem
    exact absurd hmem.2 (by simp)
  · intro a hmem ha
    rw [filter_answers, List.mem_filter]
    exact ⟨hmem, by simp [keep_answer, pyTruthy, pyEqZero, ha]⟩

/-- Claim C6, witness: in a two-answer list the integer-0 answer survives the
filter. -/
theorem claim_C6_witness :
    (⟨PyVal.num 0, 1⟩ : Answer) ∈ filter_answers [⟨PyVal.str "", 0⟩, ⟨PyVal.num 0, 1⟩] :=
  (claim_C6 [⟨PyVal.str "", 0⟩, ⟨PyVal.num 0, 1⟩]).2 ⟨PyVal.num 0, 1⟩ (by simp) rfl

/-! ### Graphie blob split in `create_perseus_zip` (source lines 325-333)

Byte strings are lists of Nat. `findDelim` and `pySplit` model Python
`bytes.split(sep)` for a non-empty separator: scan for the leftmost
occurrence, cut, and continue on the remainder. -/

/-- The index of the leftmost occurrence of `delim` in `l`, if any. -/
def findDelim : List Nat → List Nat → Option Nat
  | [], delim => if delim.isPrefixOf ([] : List Nat) then some 0 else none
  | a :: t, delim =>
    if delim.isPrefixOf (a :: t) then some 0 else (findDelim t delim).map (· + 1)

theorem findDelim_spec (l delim : List Nat) (i : Nat) (h : findDelim l delim = some i) :
    delim.isPrefixOf (l.drop i) = true := by
  induction l generalizing i with
  | nil =>
    rw [findDelim] at h
    split at h
    · rename_i hp
      injection h with hh
      rw [hh.symm]
      simpa using hp
    · exact absurd h (by simp)
  | cons a t ih =>
    rw [findDelim] at h
    split at h
    · rename_i hp
      injection h with hh
      rw [hh.symm]
      simpa using hp
    · rename_i hp
      simp at h
      rcases h with ⟨j, hj, hji⟩
      rw [hji.symm]
      simpa using ih j hj

theorem findDelim_lt (l delim : List Nat) (i : Nat) (hne : delim ≠ [])
    (h : findDelim l delim = some i) : i < l.length := by
  have hp := findDelim_spec l delim i h
  by_contra hcon
  push_neg at hcon
  rw [List.drop_eq_nil_of_le hcon] at hp
  cases delim with
  | nil => exact hne rfl
  | cons d ds => simp [List.isPrefixOf] at hp

/-- Python `l.split(delim)` for a non-empty delimiter (the source calls
`content.split(exercises.GRAPHIE_DELIMITER)` on line 331). -/
def pySplit (l delim : List Nat) : List (List Nat) :=
  if hlen : delim.length = 0 then [l]
  else
    match hf : findDelim l delim with
    | none => [l]
    | some i => l.take i :: pySplit (l.drop (i + delim.length)) delim
termination_by l.length
decreasing_by
  have hlt : i < l.length := by
    apply findDelim_lt l delim i _ hf
    intro hcon
    rw [hcon] at hlen
    simp at hlen
  simp
  omega

theorem findDelim_none (l delim : List Nat)
    (hno : ∀ i, delim.isPrefixOf (l.drop i) = false) :
    findDelim l delim = none := by
  induction l with
  | nil =>
    rw [findDelim]
    have h0 := hno 0
    simp at h0 ⊢
    intro hcon
    simp [hcon] at h0
  | cons a t ih =>
    rw [findDelim]
    have h0 := hno 0
    simp only [List.drop_zero] at h0
    rw [h0]
    simp only [if_false, Bool.false_eq_true]
    have ht : findDelim t delim = none := by
      apply ih
      intro i
      simpa using hno (i + 1)
    simp [ht]

theorem findDelim_at (pre delim post : List Nat) (hne : delim ≠ [])
    (hno : ∀ i < pre.length, delim.isPrefixOf ((pre ++ delim ++ post).drop i) = false) :
    findDelim (pre ++ delim ++ post) delim = some pre.length := by
  induction pre with
  | nil =>
    cases delim with
    | nil => exact absurd rfl hne
    | cons d ds =>
      rw [List.nil_append, List.cons_append, findDelim]
      have hp : (d :: ds).isPrefixOf ((d :: ds) ++ post) = true := by
        rw [ List.isPrefixOf_iff_prefix]
        exact List.prefix_append _ _
      simp only [List.cons_append] at hp
      rw [hp]
      simp
  | cons a pre ih =>
    rw [List.cons_append, List.cons_append, findDelim]
    have h0 := hno 0 (by simp)
    simp only [List.cons_append, List.drop_zero] at h0
    rw [h0]
    simp only [if_false, Bool.false_eq_true]
    have ihres := ih (by
      intro i hi
      have := hno (i + 1) (by simp; omega)
      simpa using this)
    simp only [List.append_assoc] at ihres ⊢
    rw [ihres]
    simp

theorem pySplit_no_delim (l delim : List Nat) (hne : delim ≠ [])
    (hno : ∀ i, delim.isPrefixOf (l.drop i) = false) :
    pySplit l delim = [l] := by
  have hlen : ¬ delim.length = 0 := by
    intro hcon
    exact hne (List.length_eq_zero.mp hcon)
  rw [pySplit]
  simp only [hlen, dite_false]
  split
  · rfl
  · rename_i i heq
    rw [findDelim_none l delim hno] at heq
    cases heq

theorem isPrefixOf_nil_false (delim : List Nat) (hne : delim ≠ []) :
    delim.isPrefixOf ([] : List Nat) = false := by
  cases delim with
  | nil => exact absurd rfl hne
  | cons d ds => rfl

theorem pySplit_graphie (pre delim post : List Nat) (hne : delim ≠ [])
    (hpre : ∀ i < pre.length, delim.isPrefixOf ((pre ++ delim ++ post).drop i) = false)
    (hpost : ∀ i < post.length, delim.isPrefixOf (post.drop i) = false) :
    pySplit (pre ++ delim ++ post) delim = [pre, post] := by
  have hpost' : ∀ i, delim.isPrefixOf (post.drop i) = false := by
    intro i
    by_cases hi : i < post.length
    · exact hpost i hi
    · push_neg at hi
      rw [List.drop_eq_nil_of_le hi]
      exact isPrefixOf_nil_false delim hne
  have hlen : ¬ delim.length = 0 := by
    intro hcon
    exact hne (List.length_eq_zero.mp hcon)
  have hfind := findDelim_at pre delim post hne hpre
  rw [pySplit]
  simp only [hlen, dite_false]
  split
  · rename_i heq
    rw [heq] at hfind
    cases hfind
  · rename_i i heq
    rw [heq] at hfind
    injection hfind with hi
    subst hi
    have htake : (pre ++ delim ++ post).take pre.length = pre := by
      rw [List.append_assoc]
      exact List.take_left pre (delim ++ post)
    have hdrop : (pre ++ delim ++ post).drop (pre.length + delim.length) = post := by
      rw [show pre.length + delim.length = (pre ++ delim).length from (List.length_append _ _).symm]
      exact List.drop_left (pre ++ delim) post
    rw [htake, hdrop, pySplit_no_delim post delim hne hpost']

/-- Embeds the graphie branch of `create_perseus_zip` (source lines 325-333):
the stored blob is split on the graphie delimiter and entries
`images/<name>.svg` and `images/<name>-data.json` are written with the first
and second parts (`content[0]`, `content[1]`); `none` models the IndexError
raised when the split has fewer than two parts. -/
def create_perseus_zip_graphie (name : String) (blob delim : List Nat) :
    Option (List (String × List Nat)) :=
  match pySplit blob delim with
  | a :: b :: _ =>
    some [("images/" ++ name ++ ".svg", a), ("images/" ++ name ++ "-data.json", b)]
  | _ => none

/-- Claim C7: a graphie blob consisting of an SVG stream and a JSON stream
joined by the (non-empty) graphie delimiter — with no stray occurrence of the
delimiter before the join point or inside the JSON part — is exported as
exactly two archive entries, `images/<name>.svg` holding exactly the bytes
before the delimiter and `images/<name>-data.json` exactly the bytes after it. -/
theorem claim_C7 (name : String) (pre delim post : List Nat)
    (hne : delim ≠ [])
    (hpre : ∀ i < pre.length, delim.isPrefixOf ((pre ++ delim ++ post).drop i) = false)
    (hpost : ∀ i < post.length, delim.isPrefixOf (post.drop i) = false) :
    create_perseus_zip_graphie name (pre ++ delim ++ post) delim =
      some [("images/" ++ name ++ ".svg", pre), ("images/" ++ name ++ "-data.json", post)] := by
  rw [create_perseus_zip_graphie, pySplit_graphie pre delim post hne hpre hpost]

/-- Claim C7, witness: the blob [1,2] ++ [9] ++ [3] with delimiter [9] splits
into the two expected entries. -/
theorem claim_C7_witness :
    create_perseus_zip_graphie "g" ([1, 2] ++ [9] ++ [3]) [9] =
      some [("images/" ++ "g" ++ ".svg", [1, 2]), ("images/" ++ "g" ++ "-data.json", [3])] :=
  claim_C7 "g" [1, 2] [9] [3] (by simp) (by decide) (by decide)

/-! ### Token generation in `add_tokens_to_channel` (source lines 553-568) -/

/-- The `max_retries = 1000000` bound declared on source line 559. -/
def MAX_RETRIES : Nat := 1000000

/-- Outcome of the collision-retry while loop: a fresh token, the
`ValueError("Cannot generate new token")` raise, or fuel exhaustion (the loop
is still running after `fuel` iterations). -/
inductive LoopOutcome where
  | ok (t : String)
  | tokenError
  | outOfFuel
deriving DecidableEq, Repr

/-- Embeds the while loop of `add_tokens_to_channel` (source lines 561-564)
verbatim: while the current token collides with an existing one, a new token
is generated (`gen k` is the k-th `proquint.generate()` call) and the guard
`index > max_retries` is consulted — with `index` left unchanged by the body,
exactly as in the source, where `index` is initialized to 0 and never
incremented. `fuel` bounds how many iterations we observe. -/
def tokenLoop (gen : Nat → String) (existing : List String) (token : String)
    (index : Nat) (k : Nat) : Nat → LoopOutcome
  | 0 => .outOfFuel
  | fuel + 1 =>
    if token ∈ existing then
      let t := gen k
      if index > MAX_RETRIES then .tokenError
      else tokenLoop gen existing t index (k + 1) fuel
    else .ok token

/-- Claim C2: the retry loop never terminates by raising the configured
fatal error. When every generated token collides with an existing token, the
loop started with index = 0 (its initial value in the source, never
incremented afterwards) is still running after any number of iterations: the
guard `index > max_retries` never fires, so no bound-exceeded error is ever
raised and the loop runs forever. This refutes the claimed bounded
termination and matches the spec's intent, not the code. -/
theorem claim_C2 (gen : Nat → String) (existing : List String)
    (hall : ∀ j, gen j ∈ existing) (token : String) (htok : token ∈ existing) (k : Nat) :
    ∀ fuel, tokenLoop gen existing token 0 k fuel = .outOfFuel := by
  intro fuel
  induction fuel generalizing token k with
  | zero => rfl
  | succ f ih =>
    rw [tokenLoop]
    simp [htok, MAX_RETRIES]
    exact ih (gen k) (hall k) (k + 1)

/-- Claim C2, witness: with the single existing token "a" and a generator
that always returns "a", five observed iterations end in neither a token nor
an error. -/
theorem claim_C2_witness :
    tokenLoop (fun _ => "a") ["a"] "a" 0 0 5 = LoopOutcome.outOfFuel :=
  claim_C2 (fun _ => "a") ["a"] (fun _ => by simp) "a" (by simp) 0 5

/-! ### The editorial store and the export pipeline (`Command.handle`) -/

/-- A SecretToken record (token string, is_primary flag). -/
structure SecretToken where
  token : String
  is_primary : Bool
deriving DecidableEq, Repr

/-- The per-node editorial flags touched by the pipeline. -/
structure StoreNode where
  changed : Bool
  published : Bool
deriving DecidableEq, Repr

/-- The slice of the editorial store the pipeline mutates: the channel's
version, its cached icon encoding, the tree family's node flags, the global
set of SecretToken records, and the channel's own token associations. -/
structure EditorialStore where
  version : Nat
  icon_encoding : String
  nodes : List StoreNode
  tokens : List SecretToken
  channel_tokens : List SecretToken
deriving DecidableEq, Repr

/-- Embeds `add_tokens_to_channel` (source lines 553-568): skip when the
channel already has a primary token; otherwise run the retry loop (first
generate() call is `gen 0`, the loop then uses `gen 1`, `gen 2`, ...) and on
success create exactly two records, the fresh token marked primary and a
token equal to the channel id. `none` covers both the ValueError raise and
an unfinished loop. -/
def add_tokens_to_channel (channel_id : String) (gen : Nat → String) (fuel : Nat)
    (s : EditorialStore) : Option EditorialStore :=
  if s.channel_tokens.any (fun t => t.is_primary) then some s
  else
    match tokenLoop gen (s.tokens.map SecretToken.token) (gen 0) 0 1 fuel with
    | .ok t =>
      some { s with
        tokens := s.tokens ++ [⟨t, true⟩, ⟨channel_id, false⟩]
        channel_tokens := s.channel_tokens ++ [⟨t, true⟩, ⟨channel_id, false⟩] }
    | .tokenError => none
    | .outOfFuel => none

theorem tokenLoop_ok_fresh (gen : Nat → String) (existing : List String) (token : String)
    (index : Nat) (k : Nat) (fuel : Nat) (t : String)
    (h : tokenLoop gen existing token index k fuel = .ok t) : t ∉ existing := by
  induction fuel generalizing token k with
  | zero => exact absurd h (by simp [tokenLoop])
  | succ f ih =>
    rw [tokenLoop] at h
    by_cases hmem : token ∈ existing
    · simp [hmem] at h
      by_cases hidx : index > MAX_RETRIES
      · simp [hidx] at h
      · simp [hidx] at h
        exact ih (gen k) (k + 1) h
    · simp [hmem] at h
      rw [h.symm]
      exact hmem

/-- Claim C8: token assignment is idempotent — when a primary token already
exists for the channel the store is returned unchanged — and otherwise, when
the retry loop yields a token, exactly two new token records are appended:
the freshly generated token, which collides with no token already in the
store, marked primary, and a token equal to the channel id. -/
theorem claim_C8 (channel_id : String) (gen : Nat → String) (fuel : Nat)
    (s : EditorialStore) :
    (s.channel_tokens.any (fun t => t.is_primary) = true →
      add_tokens_to_channel channel_id gen fuel s = some s)
    ∧ (s.channel_tokens.any (fun t => t.is_primary) = false →
        ∀ t, tokenLoop gen (s.tokens.map SecretToken.token) (gen 0) 0 1 fuel = .ok t →
          add_tokens_to_channel channel_id gen fuel s =
              some { s with
                tokens := s.tokens ++ [⟨t, true⟩, ⟨channel_id, false⟩]
                channel_tokens := s.channel_tokens ++ [⟨t, true⟩, ⟨channel_id, false⟩] }
            ∧ t ∉ s.tokens.map SecretToken.token) := by
  constructor
  · intro hprim
    simp [add_tokens_to_channel, hprim]
  · intro hprim t hok
    refine ⟨?_, tokenLoop_ok_fresh gen _ (gen 0) 0 1 fuel t hok⟩
    simp [add_tokens_to_channel, hprim, hok]

/-- Claim C8, witness: on a store holding one foreign token and no channel
tokens, assignment appends exactly the fresh primary token and the channel-id
token. -/
theorem claim_C8_witness :
    add_tokens_to_channel "chan" (fun _ => "fresh") 1
        ⟨7, "", [], [⟨"x", false⟩], []⟩ =
      some ⟨7, "", [], [⟨"x", false⟩, ⟨"fresh", true⟩, ⟨"chan", false⟩],
        [⟨"fresh", true⟩, ⟨"chan", false⟩]⟩ :=
  ((claim_C8 "chan" (fun _ => "fresh") 1 ⟨7, "", [], [⟨"x", false⟩], []⟩).2
    (by simp) "fresh" (by simp [tokenLoop])).1

/-- The failures that can arise inside the tree walk
(`map_content_nodes` / `map_prerequisites`): an unresolvable reference or an
unrecognized assessment-item type (the TypeError of `write_assessment_item`).
Both are raised inside the walk's own `transaction.atomic()` block, so their
editorial File-record side effects are rolled back. -/
inductive TreeError where
  | missingReference
  | unsupportedItemType
deriving DecidableEq, Repr

/-- The fatal failure classes of the export pipeline. -/
inductive FatalError where
  | missingReference
  | unsupportedItemType
  | storageFailure
  | tokenExhaustion
deriving DecidableEq, Repr

def TreeError.toFatal : TreeError → FatalError
  | .missingReference => .missingReference
  | .unsupportedItemType => .unsupportedItemType

/-- Outcome of one `Command.handle` invocation. -/
inductive ExportOutcome where
  | published
  | earlyExit
  | fatal (e : FatalError)
deriving DecidableEq, Repr

/-- The inputs of one export run that determine which branch each step takes:
the force flag, whether the tree walk fails and how, whether
`save_export_database` fails, the token generator sequence and observed loop
fuel, and the icon encoding computed by `convert_channel_thumbnail`. -/
structure ExportEnv where
  channel_id : String
  force : Bool
  tree_error : Option TreeError
  storage_ok : Bool
  gen : Nat → String
  fuel : Nat
  new_icon : String

/-- Embeds `raise_if_nodes_are_all_unchanged` (source lines 500-510): true
means the EarlyExit signal is raised because no family node is flagged
changed. -/
def raise_if_nodes_are_all_unchanged (s : EditorialStore) : Bool :=
  s.nodes.countP (fun n => n.changed) == 0

/-- The editorial-store effect of `map_channel_to_kolibri_channel` (source
lines 433-447): the channel's icon encoding is recomputed and saved. -/
def map_channel_to_kolibri_channel (new_icon : String) (s : EditorialStore) : EditorialStore :=
  { s with icon_encoding := new_icon }

/-- Embeds `increment_channel_version` (source lines 101-104). -/
def increment_channel_version (s : EditorialStore) : EditorialStore :=
  { s with version := s.version + 1 }

/-- Embeds `mark_all_nodes_as_changed` (source lines 513-518):
`get_family().update(changed=False, published=True)`. -/
def mark_all_nodes_as_changed (s : EditorialStore) : EditorialStore :=
  { s with nodes := s.nodes.map (fun _ => { changed := false, published := true }) }

/-- Embeds the step sequence of `Command.handle` (source lines 57-90) as it
acts on the editorial store. There is no transaction around the sequence
(only `map_content_nodes` opens one, covering just the walk), so each
completed step's mutation persists when a later step fails. The Bool result
records whether the temporary target database file was created (`mkstemp`
runs only after the early-exit check). `fill_published_fields` only writes
derived aggregate fields and is not modelled. -/
def handle (env : ExportEnv) (s : EditorialStore) : ExportOutcome × EditorialStore × Bool :=
  if !env.force && raise_if_nodes_are_all_unchanged s then
    (.earlyExit, s, false)
  else
    let s1 := map_channel_to_kolibri_channel env.new_icon s
    match env.tree_error with
    | some e => (.fatal e.toFatal, s1, true)
    | none =>
      if !env.storage_ok then (.fatal .storageFailure, s1, true)
      else
        let s2 := increment_channel_version s1
        let s3 := mark_all_nodes_as_changed s2
        match add_tokens_to_channel env.channel_id env.gen env.fuel s3 with
        | none => (.fatal .tokenExhaustion, s3, true)
        | some s4 => (.published, s4, true)

/-- Claim C1, counterexample: a concrete export run that ends in the fatal
token-exhaustion condition yet leaves the editorial store changed — the
version is bumped from 7 to 8 and the node flags are rewritten — because
`increment_channel_version` and `mark_all_nodes_as_changed` run, and commit,
before `add_tokens_to_channel`, with no enclosing transaction to roll them
back. This falsifies the claim that every fatal condition leaves the store
exactly as it was. -/
theorem claim_C1_counterexample :
    (handle ⟨"chan", true, none, true, fun _ => "tok", 3, ""⟩
        ⟨7, "", [⟨true, false⟩], [⟨"tok", false⟩], []⟩).1 =
      ExportOutcome.fatal FatalError.tokenExhaustion
    ∧ (handle ⟨"chan", true, none, true, fun _ => "tok", 3, ""⟩
        ⟨7, "", [⟨true, false⟩], [⟨"tok", false⟩], []⟩).2.1.version ≠ 7
    ∧ (handle ⟨"chan", true, none, true, fun _ => "tok", 3, ""⟩
        ⟨7, "", [⟨true, false⟩], [⟨"tok", false⟩], []⟩).2.1.nodes ≠ [⟨true, false⟩] := by
  refine ⟨?_, ?_, ?_⟩ <;> decide

/-- Claim C1, amended: fatal conditions raised before the version increment —
missing reference, unsupported assessment-item type, storage failure — leave
the channel version, the node flags and both token collections exactly as
they were; the token-exhaustion condition, which arises only after
`increment_channel_version` and `mark_all_nodes_as_changed` have committed,
creates no token records but leaves the version incremented and every node
with changed = false and published = true. -/
theorem claim_C1_amended (env : ExportEnv) (s : EditorialStore) :
    (∀ e : FatalError, (handle env s).1 = .fatal e → e ≠ .tokenExhaustion →
      (handle env s).2.1.version = s.version
        ∧ (handle env s).2.1.nodes = s.nodes
        ∧ (handle env s).2.1.tokens = s.tokens
        ∧ (handle env s).2.1.channel_tokens = s.channel_tokens)
    ∧ ((handle env s).1 = .fatal .tokenExhaustion →
      (handle env s).2.1.tokens = s.tokens
        ∧ (handle env s).2.1.channel_tokens = s.channel_tokens
        ∧ (handle env s).2.1.version = s.version + 1
        ∧ ∀ n ∈ (handle env s).2.1.nodes, n.changed = false ∧ n.published = true) := by
  by_cases h1 : (!env.force && raise_if_nodes_are_all_unchanged s) = true
  · simp [handle, h1]
  · cases htree : env.tree_error with
    | some e0 =>
      simp [handle, h1, htree, map_channel_to_kolibri_channel]
      cases e0 <;> simp [TreeError.toFatal]
    | none =>
      by_cases h2 : env.storage_ok = true
      · cases htok : add_tokens_to_channel env.channel_id env.gen env.fuel
          (mark_all_nodes_as_changed (increment_channel_version
            (map_channel_to_kolibri_channel env.new_icon s))) with
        | none =>
          simp [mark_all_nodes_as_changed, increment_channel_version,
            map_channel_to_kolibri_channel] at htok
          simp [handle, h1, htree, h2, htok, mark_all_nodes_as_changed,
            increment_channel_version, map_channel_to_kolibri_channel]
        | some s4 =>
          simp [mark_all_nodes_as_changed, increment_channel_version,
            map_channel_to_kolibri_channel] at htok
          simp [handle, h1, htree, h2, htok, mark_all_nodes_as_changed,
            increment_channel_version, map_channel_to_kolibri_channel]
      · have h2f : env.storage_ok = false := by
          rwa [Bool.not_eq_true] at h2
        simp [handle, h1, htree, h2f, map_channel_to_kolibri_channel]

/-- Claim C1 amended, witness: a storage failure on a concrete run leaves the
version, flags and tokens untouched. -/
theorem claim_C1_amended_witness :
    (handle ⟨"chan", true, none, false, fun _ => "t", 1, "icon"⟩
        ⟨5, "", [⟨true, false⟩], [⟨"t", true⟩], []⟩).2.1.version = 5
      ∧ (handle ⟨"chan", true, none, false, fun _ => "t", 1, "icon"⟩
        ⟨5, "", [⟨true, false⟩], [⟨"t", true⟩], []⟩).2.1.nodes = [⟨true, false⟩]
      ∧ (handle ⟨"chan", true, none, false, fun _ => "t", 1, "icon"⟩
        ⟨5, "", [⟨true, false⟩], [⟨"t", true⟩], []⟩).2.1.tokens = [⟨"t", true⟩]
      ∧ (handle ⟨"chan", true, none, false, fun _ => "t", 1, "icon"⟩
        ⟨5, "", [⟨true, false⟩], [⟨"t", true⟩], []⟩).2.1.channel_tokens = [] :=
  (claim_C1_amended ⟨"chan", true, none, false, fun _ => "t", 1, "icon"⟩
      ⟨5, "", [⟨true, false⟩], [⟨"t", true⟩], []⟩).1
    FatalError.storageFailure (by decide) (by decide)

/-- Claim C9: when no node in the tree family is flagged changed and the
force flag is not set, the pipeline performs no mutation at all and creates
no target database file, and it finishes with the non-fatal early-exit
outcome, never a fatal error. -/
theorem claim_C9 (env : ExportEnv) (s : EditorialStore)
    (hforce : env.force = false)
    (hunchanged : ∀ n ∈ s.nodes, n.changed = false) :
    handle env s = (.earlyExit, s, false)
      ∧ ∀ e : FatalError, (handle env s).1 ≠ .fatal e := by
  have hraise : raise_if_nodes_are_all_unchanged s = true := by
    simp [raise_if_nodes_are_all_unchanged, List.countP_eq_zero]
    intro n hn
    simp [hunchanged n hn]
  have h : handle env s = (.earlyExit, s, false) := by
    simp [handle, hforce, hraise]
  exact ⟨h, by rw [h]; simp⟩

/-- Claim C9, witness: a concrete unchanged store exits early, untouched, with
no database created. -/
theorem claim_C9_witness :
    handle ⟨"chan", false, none, true, fun _ => "t", 1, ""⟩
        ⟨3, "", [⟨false, false⟩], [], []⟩ =
      (ExportOutcome.earlyExit, ⟨3, "", [⟨false, false⟩], [], []⟩, false) :=
  (claim_C9 ⟨"chan", false, none, true, fun _ => "t", 1, ""⟩
    ⟨3, "", [⟨false, false⟩], [], []⟩ rfl (by simp)).1

end ExportChannel
